import Mathlib

/-!
Verification development for the ketama cluster-configuration module
(`src/cluster_config.c`).  Byte strings are modelled as `List Nat` with
each element a byte value; C strings are the bytes up to the NUL
terminator.  Machine 32-bit arithmetic is modelled as `Nat` reduced
`% 2^32` where overflow matters.
-/

namespace ClusterConfig

/-- 2^32, the modulus of `uint32_t` arithmetic. -/
def M32 : Nat := 4294967296

/-- Rotate a 32-bit value left by `n` bits (for `x < 2^32`, `0 < n < 32`). -/
def rotl32 (x n : Nat) : Nat := ((x <<< n) % M32) ||| (x >>> (32 - n))

/-- Modelled from the spec: round function F of the Digest Engine's MD5
(`rfc1321/md5c.c` is included by `cluster_config.c` but its source is not
under `src/`); `F(x,y,z) = (x AND y) OR (NOT x AND z)` with 32-bit NOT. -/
def md5F (x y z : Nat) : Nat := (x &&& y) ||| ((x ^^^ 4294967295) &&& z)

/-- Modelled from the spec: MD5 round function G. -/
def md5G (x y z : Nat) : Nat := (x &&& z) ||| (y &&& (z ^^^ 4294967295))

/-- Modelled from the spec: MD5 round function H. -/
def md5H (x y z : Nat) : Nat := x ^^^ y ^^^ z

/-- Modelled from the spec: MD5 round function I. -/
def md5I (x y z : Nat) : Nat := y ^^^ (x ||| (z ^^^ 4294967295))

/-- Modelled from the spec: the 64 MD5 sine-table constants of RFC 1321. -/
def md5K : List Nat :=
  [0xd76aa478, 0xe8c7b756, 0x242070db, 0xc1bdceee,
   0xf57c0faf, 0x4787c62a, 0xa8304613, 0xfd469501,
   0x698098d8, 0x8b44f7af, 0xffff5bb1, 0x895cd7be,
   0x6b901122, 0xfd987193, 0xa679438e, 0x49b40821,
   0xf61e2562, 0xc040b340, 0x265e5a51, 0xe9b6c7aa,
   0xd62f105d, 0x02441453, 0xd8a1e681, 0xe7d3fbc8,
   0x21e1cde6, 0xc33707d6, 0xf4d50d87, 0x455a14ed,
   0xa9e3e905, 0xfcefa3f8, 0x676f02d9, 0x8d2a4c8a,
   0xfffa3942, 0x8771f681, 0x6d9d6122, 0xfde5380c,
   0xa4beea44, 0x4bdecfa9, 0xf6bb4b60, 0xbebfbc70,
   0x289b7ec6, 0xeaa127fa, 0xd4ef3085, 0x04881d05,
   0xd9d4d039, 0xe6db99e5, 0x1fa27cf8, 0xc4ac5665,
   0xf4292244, 0x432aff97, 0xab9423a7, 0xfc93a039,
   0x655b59c3, 0x8f0ccc92, 0xffeff47d, 0x85845dd1,
   0x6fa87e4f, 0xfe2ce6e0, 0xa3014314, 0x4e0811a1,
   0xf7537e82, 0xbd3af235, 0x2ad7d2bb, 0xeb86d391]

/-- Modelled from the spec: the MD5 per-round left-rotation amounts. -/
def md5S : List Nat :=
  [7, 12, 17, 22, 7, 12, 17, 22, 7, 12, 17, 22, 7, 12, 17, 22,
   5, 9, 14, 20, 5, 9, 14, 20, 5, 9, 14, 20, 5, 9, 14, 20,
   4, 11, 16, 23, 4, 11, 16, 23, 4, 11, 16, 23, 4, 11, 16, 23,
   6, 10, 15, 21, 6, 10, 15, 21, 6, 10, 15, 21, 6, 10, 15, 21]

/-- Modelled from the spec: decode a 64-byte MD5 block into 16 little-endian
32-bit words. -/
def md5Words (block : List Nat) : List Nat :=
  (List.range 16).map (fun j =>
    block.getD (4 * j) 0 + 256 * block.getD (4 * j + 1) 0 +
    65536 * block.getD (4 * j + 2) 0 + 16777216 * block.getD (4 * j + 3) 0)

/-- Modelled from the spec: one of the 64 MD5 rounds. -/
def md5Step (w : List Nat) (st : Nat × Nat × Nat × Nat) (i : Nat) :
    Nat × Nat × Nat × Nat :=
  match st with
  | (a, b, c, d) =>
    let fg : Nat × Nat :=
      if i < 16 then (md5F b c d, i)
      else if i < 32 then (md5G b c d, (5 * i + 1) % 16)
      else if i < 48 then (md5H b c d, (3 * i + 5) % 16)
      else (md5I b c d, (7 * i) % 16)
    let tmp := (a + fg.fst + md5K.getD i 0 + w.getD fg.snd 0) % M32
    (d, (b + rotl32 tmp (md5S.getD i 0)) % M32, b, c)

/-- Modelled from the spec: process one 64-byte block of the MD5 input. -/
def md5Block (st : Nat × Nat × Nat × Nat) (block : List Nat) :
    Nat × Nat × Nat × Nat :=
  let w := md5Words block
  let r := (List.range 64).foldl (md5Step w) st
  match st, r with
  | (h0, h1, h2, h3), (a, b, c, d) =>
    ((h0 + a) % M32, (h1 + b) % M32, (h2 + c) % M32, (h3 + d) % M32)

/-- Modelled from the spec: MD5 padding — append 0x80, zero bytes up to 56 mod
64, then the 64-bit little-endian bit length. -/
def md5Pad (msg : List Nat) : List Nat :=
  let len := msg.length
  let zeros := (64 + 55 - (len % 64)) % 64
  let bitLen := (len * 8) % 18446744073709551616
  msg ++ 128 :: List.replicate zeros 0 ++
    (List.range 8).map (fun i => (bitLen >>> (8 * i)) &&& 255)

/-- Split a byte list into chunks of 64 bytes; the first argument is fuel
(one unit per chunk, so the list's length always suffices). -/
def chunks64Aux : Nat → List Nat → List (List Nat)
  | 0, _ => []
  | fuel + 1, l => if l = [] then [] else l.take 64 :: chunks64Aux fuel (l.drop 64)

/-- Split a byte list into chunks of 64 bytes. -/
def chunks64 (l : List Nat) : List (List Nat) := chunks64Aux l.length l

/-- The four bytes of a 32-bit word, least-significant first. -/
def wordBytesLE (x : Nat) : List Nat :=
  [x &&& 255, (x >>> 8) &&& 255, (x >>> 16) &&& 255, (x >>> 24) &&& 255]

/-- Modelled from the spec: `digest128` of the Digest Engine — the standard
16-byte MD5 digest of a byte string (`hash_md5` in the source delegates to
`rfc1321/md5c.c`, which is not under `src/`). -/
def hash_md5 (msg : List Nat) : List Nat :=
  let st := (chunks64 (md5Pad msg)).foldl md5Block
    (1732584193, 4023233417, 2562383102, 271733878)
  wordBytesLE st.1 ++ wordBytesLE st.2.1 ++ wordBytesLE st.2.2.1 ++ wordBytesLE st.2.2.2

/-- `hash_ketama` from the source: the 32-bit key digest, composed from the
first four MD5 bytes with `digest[3]` most significant. -/
def hash_ketama (key : List Nat) : Nat :=
  let digest := hash_md5 key
  (digest.getD 3 0 <<< 24) ||| (digest.getD 2 0 <<< 16) |||
  (digest.getD 1 0 <<< 8) ||| digest.getD 0 0

/-- `struct continuum_item`: one point on the ketama continuum. -/
structure continuum_item where
  index : Nat
  point : Nat
  deriving DecidableEq, Repr

/-- `struct server_item`: one server entry; `hostport = none` models a NULL
pointer (left by `calloc` when `strtok_r` finds no token in the raw string). -/
structure server_item where
  hostport : Option (List Nat)
  deriving DecidableEq, Repr

/-- `struct cluster_config` (the fields the algorithms read or write; the
lock and logger are concurrency/IO collaborators outside this model).
`continuum_null` records whether the `continuum` pointer is NULL, which the
entry assertion of `cluster_config_key_is_mine` tests. -/
structure cluster_config where
  self_id : Nat
  self_hostport : List Nat
  num_servers : Nat
  num_continuum : Nat
  servers : List server_item
  continuum : List continuum_item
  continuum_null : Bool
  is_valid : Bool
  deriving DecidableEq, Repr

/-- Outcomes of the memory allocations `reconfigure` performs: the `calloc`
of the server array, the per-token `strdup`, and the `calloc` of the
continuum.  `true` means the allocation succeeds. -/
structure AllocOracle where
  servers_calloc : Bool
  strdup : Nat → Bool
  continuum_calloc : Bool

/-- The effect of the single `strtok_r(server_list[i], "-", &buf)` call on a
raw token: skip the leading run of dashes, and if a (non-dash) token
follows, overwrite the dash after it (if any) with NUL.  Returns the
resulting C string when a token was found (`none` models `strtok_r`
returning NULL for an empty or all-dash string, leaving it unchanged). -/
def tokenize (s : List Nat) : Option (List Nat) :=
  let lead := s.takeWhile (fun c => c == 45)
  let rest := s.dropWhile (fun c => c == 45)
  if rest.isEmpty then none
  else some (lead ++ rest.takeWhile (fun c => c != 45))

/-- The `for (i=0; i<num_servers; i++)` loop of `server_item_populate`,
processing tokens from index `i` with the running `*self_id` value `sid`.
Returns the built `server_item` entries plus the final `*self_id` (`none`
on a `strdup` failure) together with the caller's token strings as mutated
in place by `strtok_r`. -/
def populateLoop (alloc : AllocOracle) (self_hostport : List Nat) :
    Nat → List (List Nat) → Nat → Option (List server_item × Nat) × List (List Nat)
  | _, [], sid => (some ([], sid), [])
  | i, s :: rest, sid =>
    match tokenize s with
    | none =>
      -- strtok_r returned NULL: entry stays NULL, string unchanged
      let r := populateLoop alloc self_hostport (i + 1) rest sid
      (r.fst.map (fun p => ({ hostport := none } :: p.fst, p.snd)), s :: r.snd)
    | some t =>
      if alloc.strdup i then
        let sid' := if self_hostport = t then i else sid
        let r := populateLoop alloc self_hostport (i + 1) rest sid'
        (r.fst.map (fun p => ({ hostport := some t } :: p.fst, p.snd)), t :: r.snd)
      else
        -- strdup failed: token i was already truncated, the rest untouched
        (none, t :: rest)

/-- `server_item_populate`: parse the raw token strings into server items,
recording `*self_id` for tokens matching `self_hostport`.  The first
component is `none` on failure; the second is the caller's `server_list`
after the in-place `strtok_r` mutation. -/
def server_item_populate (alloc : AllocOracle) (server_list : List (List Nat))
    (self_hostport : List Nat) :
    Option (List server_item × Nat) × List (List Nat) :=
  if alloc.servers_calloc then populateLoop alloc self_hostport 0 server_list 0
  else (none, server_list)

def NUM_OF_HASHES : Nat := 40
def NUM_PER_HASH : Nat := 4

/-- Decimal digits of `hh` as bytes, as printed by `snprintf`'s `%u`. -/
def decimalBytes (n : Nat) : List Nat := (Nat.repr n).toList.map Char.toNat

/-- The bytes of the C string built by
`snprintf(host, ..., "%s-%u", servers[ss].hostport, hh)`.
(`MAX_SERVER_ITEM_COUNT` comes from the header, which is not under `src/`;
truncation of oversized addresses is not modelled.) -/
def hostString (addr : List Nat) (hh : Nat) : List Nat :=
  addr ++ 45 :: decimalBytes hh

/-- The point value `(*continuum)[pp].point` computed in
`ketama_continuum_generate` for sub-point `nn` of a digest. -/
def contPoint (digest : List Nat) (nn : Nat) : Nat :=
  ((digest.getD (3 + nn * NUM_PER_HASH) 0 &&& 255) <<< 24) |||
  ((digest.getD (2 + nn * NUM_PER_HASH) 0 &&& 255) <<< 16) |||
  ((digest.getD (1 + nn * NUM_PER_HASH) 0 &&& 255) <<< 8) |||
  (digest.getD (0 + nn * NUM_PER_HASH) 0 &&& 255)

/-- The continuum items the `hh` loop body emits for server `ss`. -/
def serverPoints (addr : List Nat) (ss : Nat) : List continuum_item :=
  (List.range NUM_OF_HASHES).flatMap (fun hh =>
    let digest := hash_md5 (hostString addr hh)
    (List.range NUM_PER_HASH).map (fun nn =>
      { index := ss, point := contPoint digest nn }))

/-- The continuum as filled by the `ss`/`hh`/`nn` loop nest of
`ketama_continuum_generate`, before the `qsort` call.  A NULL `hostport`
makes `snprintf`'s `%s` undefined behaviour in C; it is modelled as the
empty address. -/
def unsortedContinuum (servers : List server_item) (num_servers : Nat) :
    List continuum_item :=
  (List.range num_servers).flatMap (fun ss =>
    serverPoints (((servers.getD ss { hostport := none }).hostport).getD []) ss)

/-- `ketama_continuum_generate`: allocate and fill the continuum, then sort
it by point value (`qsort` with `continuum_item_cmp`, an unstable
comparison sort modelled by the deterministic `mergeSort`; the spec leaves
the order of equal points unspecified).  `none` models the `calloc`
failure path. -/
def ketama_continuum_generate (alloc : AllocOracle) (servers : List server_item)
    (num_servers : Nat) : Option (List continuum_item) :=
  if alloc.continuum_calloc then
    some ((unsortedContinuum servers num_servers).mergeSort
      (fun a b => decide (a.point ≤ b.point)))
  else none

/-- `cluster_config_init`: a fresh, zeroed, invalid configuration
(`calloc` zeroes every field; NULL string pointers are modelled as `[]`). -/
def cluster_config_init : cluster_config :=
  { self_id := 0, self_hostport := [], num_servers := 0, num_continuum := 0,
    servers := [], continuum := [], continuum_null := true, is_valid := false }

/-- `cluster_config_set_hostport`: record this node's own address. -/
def cluster_config_set_hostport (config : cluster_config) (hostport : List Nat) :
    cluster_config :=
  { config with self_hostport := hostport }

/-- Result of `cluster_config_reconfigure`: the boolean return value, the
configuration after the call, and the caller's `server_list` strings after
the in-place mutation done by `server_item_populate`. -/
structure ReconfigureResult where
  ok : Bool
  config : cluster_config
  server_list : List (List Nat)
  deriving DecidableEq, Repr

/-- `cluster_config_reconfigure`: build a candidate server list and
continuum; on any failure only flip `is_valid` to false, otherwise install
the new `servers`/`continuum`/`self_id` and set `is_valid` to true. -/
def cluster_config_reconfigure (alloc : AllocOracle) (config : cluster_config)
    (server_list : List (List Nat)) : ReconfigureResult :=
  let num_servers := server_list.length
  let pop := server_item_populate alloc server_list config.self_hostport
  match pop.fst with
  | none =>
    { ok := false, config := { config with is_valid := false }, server_list := pop.snd }
  | some (servers, self_id) =>
    match ketama_continuum_generate alloc servers num_servers with
    | none =>
      { ok := false, config := { config with is_valid := false }, server_list := pop.snd }
    | some continuum =>
      { ok := true,
        config := { config with
          self_id := self_id, num_servers := num_servers, servers := servers,
          continuum := continuum, num_continuum := continuum.length,
          continuum_null := false, is_valid := true },
        server_list := pop.snd }

/-- What `cluster_config_key_is_mine` reports through its out-parameters:
`ids = some (key_id, self_id)` when the function writes `*key_id` and
`*self_id`, `none` when it returns early without writing them. -/
structure KResult where
  is_mine : Bool
  ids : Option (Nat × Nat)
  deriving DecidableEq, Repr

/-- `midp = lowp + (highp - lowp) / 2`, as an offset from `beginp`. -/
def ketamaMid (low high : Int) : Int := low + (high - low) / 2

/-- `prev = (midp == beginp) ? 0 : (midp-1)->point`; `none` models a read
outside the continuum array. -/
def ketamaPrev (ring : List continuum_item) (mid : Int) : Option Nat :=
  if mid = 0 then some 0
  else (ring.get? (mid.toNat - 1)).map (fun it => it.point)

/-- The `while (1)` binary-search loop of `cluster_config_key_is_mine` over
`ring` with `endp` at index `n`, searching for `digest`.  `low`/`high` are
the offsets of `lowp`/`highp` from `beginp` (`highp` may move one below
`beginp`, hence `Int`).  Returns the offset of the continuum entry whose
`index` field is read (`0` on the two fallback breaks); `none` models
either fuel exhaustion or an out-of-bounds `point` read. -/
def ketamaLoop (ring : List continuum_item) (n : Nat) (digest : Nat) :
    Nat → Int → Int → Option Nat
  | 0, _, _ => none
  | fuel + 1, low, high =>
    if ketamaMid low high = (n : Int) then some 0
    else
      match ring.get? (ketamaMid low high).toNat, ketamaPrev ring (ketamaMid low high) with
      | some mitem, some prev =>
        if digest ≤ mitem.point ∧ prev < digest then some (ketamaMid low high).toNat
        else
          if mitem.point < digest then
            if ketamaMid low high + 1 > high then some 0
            else ketamaLoop ring n digest fuel (ketamaMid low high + 1) high
          else
            if low > ketamaMid low high - 1 then some 0
            else ketamaLoop ring n digest fuel low (ketamaMid low high - 1)
      | _, _ => none

/-- `cluster_config_key_is_mine`: decide whether `key` belongs to this node.
The first component is `none` when the model cannot justify the execution:
the entry assertion `assert(config->continuum)` fails (NULL continuum), or
the loop would read the continuum out of bounds.  The configuration is
returned unchanged (the function only reads it under the lock). -/
def cluster_config_key_is_mine (config : cluster_config) (key : List Nat) :
    Option KResult × cluster_config :=
  (if config.continuum_null then none
   else if config.is_valid = false then some { is_mine := true, ids := none }
   else
     match ketamaLoop config.continuum config.num_continuum (hash_ketama key)
       (config.num_continuum + 1) 0 (config.num_continuum : Int) with
     | none => none
     | some pos =>
       match config.continuum.get? pos with
       | none => none
       | some item =>
         some { is_mine := decide (item.index = config.self_id),
                ids := some (item.index, config.self_id) },
   config)

/-! ## Claim-side definitions

These definitions follow the words of the specification (not the source);
the theorems below compare the source-derived definitions against them. -/

/-- Claim-side (spec 4.1): `pointFromDigest(digest16, offset)` extracts the
4 bytes starting at `offset` and composes them little-endian, the byte at
`offset` being least-significant. -/
def pointFromDigest (digest : List Nat) (offset : Nat) : Nat :=
  digest.getD offset 0 + 256 * digest.getD (offset + 1) 0 +
  65536 * digest.getD (offset + 2) 0 + 16777216 * digest.getD (offset + 3) 0

/-- Claim-side (spec 4.2): the canonical address of a raw token — the
substring before the first `-` separator when the token contains one, the
token verbatim otherwise. -/
def claimCanonical (s : List Nat) : List Nat :=
  if s.contains 45 then s.takeWhile (fun b => b != 45) else s

/-- Claim-side (C9): position of the first separator byte that comes after
at least one non-separator byte; `seen` records whether a non-separator
byte has been passed already. -/
def claimSepScan (seen : Bool) : List Nat → Option Nat
  | [] => none
  | c :: rest =>
    if c == 45 && seen then some 0
    else (claimSepScan (seen || c != 45) rest).map (fun i => i + 1)

/-- Claim-side (C9): the caller's token string after `reconfigure` ran, as
the claim describes it — truncated at the first separator that follows at
least one non-separator byte, unchanged if there is no such separator. -/
def claimMutate (s : List Nat) : List Nat :=
  match claimSepScan false s with
  | none => s
  | some i => s.take i

/-- Claim-side (C4 amended): the index of the last raw token whose canonical
address (as actually stored) equals the node's own address. -/
def lastMatchIdx (self : List Nat) (sl : List (List Nat)) : Option Nat :=
  ((List.range sl.length).filter
    (fun i => decide (tokenize (sl.getD i []) = some self))).getLast?

/-- The invariant of claim C2: whenever the validity flag is true, the ring
has `servers.length * 160` points, is sorted ascending by point value, and
every ring point's server index is a valid index into the server list. -/
def ConfigInvariant (c : cluster_config) : Prop :=
  c.is_valid = true →
    (c.continuum.length = c.servers.length * 160 ∧
     c.continuum.Pairwise (fun a b => a.point ≤ b.point) ∧
     ∀ item ∈ c.continuum, item.index < c.servers.length)

instance (c : cluster_config) : Decidable (ConfigInvariant c) := by
  unfold ConfigInvariant; infer_instance

/-- An allocation oracle under which every allocation succeeds. -/
def allocAllOk : AllocOracle :=
  { servers_calloc := true, strdup := fun _ => true, continuum_calloc := true }

/-- An allocation oracle whose server-array `calloc` fails. -/
def allocNoServers : AllocOracle :=
  { servers_calloc := false, strdup := fun _ => true, continuum_calloc := true }

/-! ## Tokenizer lemmas -/

/-- The C string left in the caller's buffer after `strtok_r` processed it:
the token-truncated form when a token was found, the original otherwise. -/
def mutToken (s : List Nat) : List Nat := (tokenize s).getD s

/-- Truncation of `s` at an optional position. -/
def truncAt (s : List Nat) : Option Nat → List Nat
  | none => s
  | some i => s.take i


theorem tokenize_nil : tokenize [] = none := rfl

theorem tokenize_cons_dash (r : List Nat) :
    tokenize (45 :: r) = (tokenize r).map (fun t => 45 :: t) := by
  simp only [tokenize, List.takeWhile_cons, List.dropWhile_cons]
  norm_num
  split
  · rfl
  · rfl

theorem tokenize_cons_ne (c : Nat) (r : List Nat) (hc : c ≠ 45) :
    tokenize (c :: r) = some (c :: r.takeWhile (fun b => b != 45)) := by
  have hb : (c == 45) = false := by simpa using hc
  simp [tokenize, List.takeWhile_cons, List.dropWhile_cons, hb, hc]

theorem mutToken_cons_dash (r : List Nat) :
    mutToken (45 :: r) = 45 :: mutToken r := by
  unfold mutToken
  rw [tokenize_cons_dash]
  cases tokenize r <;> rfl

theorem truncAt_none (s : List Nat) : truncAt s none = s := rfl

theorem truncAt_some (s : List Nat) (i : Nat) : truncAt s (some i) = s.take i := rfl

theorem claimMutate_eq_truncAt (s : List Nat) :
    claimMutate s = truncAt s (claimSepScan false s) := by
  unfold claimMutate truncAt
  cases claimSepScan false s <;> rfl

theorem truncAt_scan_true (r : List Nat) :
    truncAt r (claimSepScan true r) = r.takeWhile (fun b => b != 45) := by
  induction r with
  | nil => rfl
  | cons c rest ih =>
    by_cases hc : c = 45
    · subst hc
      have hscan : claimSepScan true (45 :: rest) = some 0 := by
        simp [claimSepScan]
      rw [hscan, truncAt_some]
      simp [List.takeWhile_cons]
    · have hb : (c == 45) = false := by simpa using hc
      have hb' : (c != 45) = true := by simpa using hc
      have hscan : claimSepScan true (c :: rest) =
          (claimSepScan true rest).map (fun i => i + 1) := by
        simp [claimSepScan, hb]
      rw [hscan]
      simp only [List.takeWhile_cons, hb', if_true]
      cases hsc : claimSepScan true rest with
      | none =>
        rw [hsc, truncAt_none] at ih
        simp only [Option.map_none', truncAt_none]
        exact congrArg (fun l => c :: l) ih
      | some i =>
        rw [hsc, truncAt_some] at ih
        simp only [Option.map_some', truncAt_some]
        rw [List.take_succ_cons]
        exact congrArg (fun l => c :: l) ih

theorem claimMutate_cons_dash (r : List Nat) :
    claimMutate (45 :: r) = 45 :: claimMutate r := by
  unfold claimMutate
  simp only [claimSepScan]
  norm_num
  cases claimSepScan false r <;> simp [List.take_succ_cons]

theorem mutToken_eq_claimMutate (s : List Nat) : mutToken s = claimMutate s := by
  induction s with
  | nil => rfl
  | cons c rest ih =>
    by_cases hc : c = 45
    · subst hc
      rw [mutToken_cons_dash, claimMutate_cons_dash, ih]
    · have hb : (c == 45) = false := by simpa using hc
      have hb' : (c != 45) = true := by simpa using hc
      unfold mutToken
      rw [tokenize_cons_ne c rest hc]
      have hscan : claimSepScan false (c :: rest) =
          (claimSepScan true rest).map (fun i => i + 1) := by
        simp [claimSepScan, hb, hb']
      rw [claimMutate_eq_truncAt, hscan]
      have h45 := truncAt_scan_true rest
      cases hsc : claimSepScan true rest with
      | none =>
        rw [hsc, truncAt_none] at h45
        simp only [Option.map_none', truncAt_none, Option.getD_some]
        exact congrArg (fun l => c :: l) h45.symm
      | some i =>
        rw [hsc, truncAt_some] at h45
        simp only [Option.map_some', truncAt_some, Option.getD_some]
        rw [List.take_succ_cons]
        exact congrArg (fun l => c :: l) h45.symm

/-- For a nonempty token that does not begin with a separator, the stored
canonical address is exactly the claim's canonical address. -/
theorem tokenize_eq_claimCanonical (c : Nat) (r : List Nat) (hc : c ≠ 45) :
    tokenize (c :: r) = some (claimCanonical (c :: r)) := by
  rw [tokenize_cons_ne c r hc]
  unfold claimCanonical
  have hb' : (c != 45) = true := by simpa using hc
  by_cases hmem : (c :: r).contains 45
  · rw [if_pos hmem]
    simp [List.takeWhile_cons, hb']
  · rw [if_neg hmem]
    have hall : ∀ b ∈ r, (b != 45) = true := by
      intro b hb
      have hbne : b ≠ 45 := by
        intro hEq
        subst hEq
        exact hmem (by simp [List.contains_iff_exists_mem_beq]; exact Or.inr hb)
      simpa using hbne
    rw [List.takeWhile_eq_self_iff.mpr hall]

/-! ## Server-registry lemmas -/

theorem populateLoop_nil (alloc : AllocOracle) (self : List Nat) (i sid : Nat) :
    populateLoop alloc self i [] sid = (some ([], sid), []) := rfl

theorem populateLoop_cons_none (alloc : AllocOracle) (self : List Nat)
    (i sid : Nat) (s : List Nat) (rest : List (List Nat))
    (htok : tokenize s = none) :
    populateLoop alloc self i (s :: rest) sid =
      ((populateLoop alloc self (i + 1) rest sid).fst.map
        (fun p => ({ hostport := none } :: p.fst, p.snd)),
       s :: (populateLoop alloc self (i + 1) rest sid).snd) := by
  simp [populateLoop, htok]

theorem populateLoop_cons_some (alloc : AllocOracle) (self : List Nat)
    (i sid : Nat) (s t : List Nat) (rest : List (List Nat))
    (htok : tokenize s = some t) (hstr : alloc.strdup i = true) :
    populateLoop alloc self i (s :: rest) sid =
      ((populateLoop alloc self (i + 1) rest (if self = t then i else sid)).fst.map
        (fun p => ({ hostport := some t } :: p.fst, p.snd)),
       t :: (populateLoop alloc self (i + 1) rest (if self = t then i else sid)).snd) := by
  simp [populateLoop, htok, hstr]

theorem populateLoop_length (alloc : AllocOracle) (self : List Nat) :
    ∀ (sl : List (List Nat)) (i sid : Nat) (items : List server_item) (sidOut : Nat),
      (populateLoop alloc self i sl sid).fst = some (items, sidOut) →
      items.length = sl.length := by
  intro sl
  induction sl with
  | nil =>
    intro i sid items sidOut h
    rw [populateLoop_nil] at h
    simp only [Option.some.injEq, Prod.mk.injEq] at h
    rw [← h.1]
    rfl
  | cons s rest ih =>
    intro i sid items sidOut h
    cases htok : tokenize s with
    | none =>
      rw [populateLoop_cons_none alloc self i sid s rest htok] at h
      simp only at h
      obtain ⟨p, hp, hfp⟩ := Option.map_eq_some'.mp h
      simp only [Prod.mk.injEq] at hfp
      rw [← hfp.1]
      simp only [List.length_cons]
      rw [ih (i + 1) sid p.fst p.snd hp]
    | some t =>
      by_cases hstr : alloc.strdup i = true
      · rw [populateLoop_cons_some alloc self i sid s t rest htok hstr] at h
        simp only at h
        obtain ⟨p, hp, hfp⟩ := Option.map_eq_some'.mp h
        simp only [Prod.mk.injEq] at hfp
        rw [← hfp.1]
        simp only [List.length_cons]
        rw [ih (i + 1) _ p.fst p.snd hp]
      · have hstr' : alloc.strdup i = false := by
          cases hv : alloc.strdup i
          · rfl
          · exact absurd hv hstr
        simp [populateLoop, htok, hstr'] at h

theorem populateLoop_snd (alloc : AllocOracle) (self : List Nat)
    (hstr : ∀ j, alloc.strdup j = true) :
    ∀ (sl : List (List Nat)) (i sid : Nat),
      (populateLoop alloc self i sl sid).snd = sl.map mutToken := by
  intro sl
  induction sl with
  | nil => intro i sid; rfl
  | cons s rest ih =>
    intro i sid
    cases htok : tokenize s with
    | none =>
      rw [populateLoop_cons_none alloc self i sid s rest htok]
      simp only [List.map_cons]
      rw [ih (i + 1) sid]
      have hm : mutToken s = s := by unfold mutToken; rw [htok]; rfl
      rw [hm]
    | some t =>
      rw [populateLoop_cons_some alloc self i sid s t rest htok (hstr i)]
      simp only [List.map_cons]
      rw [ih (i + 1) _]
      have hm : mutToken s = t := by unfold mutToken; rw [htok]; rfl
      rw [hm]

theorem populateLoop_success (alloc : AllocOracle) (self : List Nat)
    (hstr : ∀ j, alloc.strdup j = true) :
    ∀ (sl : List (List Nat)) (i sid : Nat),
      ∃ sidOut,
        (populateLoop alloc self i sl sid).fst =
          some (sl.map (fun s => { hostport := tokenize s }), sidOut) ∧
        ((sidOut = sid ∧ ∀ j, j < sl.length → tokenize (sl.getD j []) ≠ some self) ∨
         (∃ k, k < sl.length ∧ tokenize (sl.getD k []) = some self ∧ sidOut = i + k ∧
            ∀ j, j < sl.length → k < j → tokenize (sl.getD j []) ≠ some self)) := by
  intro sl
  induction sl with
  | nil =>
    intro i sid
    exact ⟨sid, rfl, Or.inl ⟨rfl, by intro j hj; simp at hj⟩⟩
  | cons s rest ih =>
    intro i sid
    cases htok : tokenize s with
    | none =>
      obtain ⟨sidOut, hfst, hcase⟩ := ih (i + 1) sid
      refine ⟨sidOut, ?_, ?_⟩
      · rw [populateLoop_cons_none alloc self i sid s rest htok]
        simp only [hfst, Option.map_some', List.map_cons, htok]
      · rcases hcase with ⟨hs, hnone⟩ | ⟨k, hk, hkt, hko, hlast⟩
        · refine Or.inl ⟨hs, ?_⟩
          intro j hj
          cases j with
          | zero => simp [List.getD_cons_zero, htok]
          | succ j' =>
            intro hc
            exact hnone j' (by simpa using hj) (by simpa using hc)
        · refine Or.inr ⟨k + 1, by simpa using hk, by simpa using hkt, by omega, ?_⟩
          intro j hj hkj
          cases j with
          | zero => omega
          | succ j' =>
            intro hc
            exact hlast j' (by simpa using hj) (by omega) (by simpa using hc)
    | some t =>
      by_cases hmatch : self = t
      · subst hmatch
        obtain ⟨sidOut, hfst, hcase⟩ := ih (i + 1) i
        refine ⟨sidOut, ?_, ?_⟩
        · rw [populateLoop_cons_some alloc self i sid s self rest htok (hstr i)]
          have hif : (if self = self then i else sid) = i := if_pos rfl
          rw [hif]
          simp only [hfst, Option.map_some', List.map_cons, htok]
        · rcases hcase with ⟨hs, hnone⟩ | ⟨k, hk, hkt, hko, hlast⟩
          · refine Or.inr ⟨0, by simp, by simpa using htok, by omega, ?_⟩
            intro j hj hkj
            cases j with
            | zero => omega
            | succ j' =>
              intro hc
              exact hnone j' (by simpa using hj) (by simpa using hc)
          · refine Or.inr ⟨k + 1, by simpa using hk, by simpa using hkt, by omega, ?_⟩
            intro j hj hkj
            cases j with
            | zero => omega
            | succ j' =>
              intro hc
              exact hlast j' (by simpa using hj) (by omega) (by simpa using hc)
      · obtain ⟨sidOut, hfst, hcase⟩ := ih (i + 1) sid
        refine ⟨sidOut, ?_, ?_⟩
        · rw [populateLoop_cons_some alloc self i sid s t rest htok (hstr i)]
          simp only [if_neg hmatch, hfst, Option.map_some', List.map_cons, htok]
        · have hne0 : tokenize ((s :: rest).getD 0 []) ≠ some self := by
            simp only [List.getD_cons_zero, htok]
            intro hc
            exact hmatch (by injection hc with h'; exact h'.symm)
          rcases hcase with ⟨hs, hnone⟩ | ⟨k, hk, hkt, hko, hlast⟩
          · refine Or.inl ⟨hs, ?_⟩
            intro j hj
            cases j with
            | zero => exact hne0
            | succ j' =>
              intro hc
              exact hnone j' (by simpa using hj) (by simpa using hc)
          · refine Or.inr ⟨k + 1, by simpa using hk, by simpa using hkt, by omega, ?_⟩
            intro j hj hkj
            cases j with
            | zero => omega
            | succ j' =>
              intro hc
              exact hlast j' (by simpa using hj) (by omega) (by simpa using hc)

theorem filter_range_getLast (p : Nat → Bool) :
    ∀ (n k : Nat), k < n → p k = true → (∀ j, k < j → j < n → p j = false) →
      ((List.range n).filter p).getLast? = some k := by
  intro n
  induction n with
  | zero => intro k hk _ _; omega
  | succ m ih =>
    intro k hk hp hlast
    rw [List.range_succ, List.filter_append]
    by_cases hkm : k = m
    · subst hkm
      have hfm : List.filter p [k] = [k] := by simp [List.filter_cons, hp]
      rw [hfm]
      exact List.getLast?_concat _
    · have hpm : p m = false := hlast m (by omega) (by omega)
      have hfm : List.filter p [m] = [] := by simp [List.filter_cons, hpm]
      rw [hfm, List.append_nil]
      exact ih k (by omega) hp (fun j h1 h2 => hlast j h1 (by omega))

theorem filter_range_nil (p : Nat → Bool) (n : Nat)
    (h : ∀ j, j < n → p j = false) : (List.range n).filter p = [] := by
  rw [List.filter_eq_nil_iff]
  intro a ha
  rw [List.mem_range] at ha
  simp [h a ha]

/-! ## Ring-builder lemmas -/

theorem length_flatMap_const {α β : Type} (f : α → List β) (L : Nat) :
    ∀ (l : List α), (∀ a ∈ l, (f a).length = L) → (l.flatMap f).length = l.length * L := by
  intro l
  induction l with
  | nil => intro _; simp
  | cons a t ih =>
    intro h
    rw [List.flatMap_cons, List.length_append, h a (by simp),
      ih (fun x hx => h x (by simp [hx])), List.length_cons]
    ring

theorem flatMap_get?_const {α β : Type} (f : α → List β) (L : Nat) :
    ∀ (l : List α) (i r : Nat) (a : α), (∀ x ∈ l, (f x).length = L) →
      l.get? i = some a → r < L →
      (l.flatMap f).get? (i * L + r) = (f a).get? r := by
  intro l
  induction l with
  | nil => intro i r a _ h _; simp at h
  | cons x t ih =>
    intro i r a hlen hget hr
    rw [List.flatMap_cons]
    cases i with
    | zero =>
      have hx : x = a := by simpa using hget
      subst hx
      rw [Nat.zero_mul, Nat.zero_add]
      exact List.get?_append (by rw [hlen x (by simp)]; exact hr)
    | succ i' =>
      have hxlen : (f x).length = L := hlen x (by simp)
      have hge : (f x).length ≤ (i' + 1) * L + r := by
        rw [hxlen]
        have : (i' + 1) * L = i' * L + L := by ring
        omega
      rw [List.get?_append_right hge]
      have harith : (i' + 1) * L + r - (f x).length = i' * L + r := by
        rw [hxlen]
        have : (i' + 1) * L = i' * L + L := by ring
        omega
      rw [harith]
      exact ih i' r a (fun y hy => hlen y (by simp [hy])) (by simpa using hget) hr

theorem serverPoints_length (addr : List Nat) (ss : Nat) :
    (serverPoints addr ss).length = 160 := by
  unfold serverPoints
  rw [length_flatMap_const _ 4 _ (fun hh _ => by simp [NUM_PER_HASH])]
  simp [NUM_OF_HASHES]

theorem unsortedContinuum_length (servers : List server_item) (n : Nat) :
    (unsortedContinuum servers n).length = n * 160 := by
  unfold unsortedContinuum
  rw [length_flatMap_const _ 160 _ (fun ss _ => serverPoints_length _ ss)]
  simp

theorem unsortedContinuum_index_lt (servers : List server_item) (n : Nat)
    (item : continuum_item) (h : item ∈ unsortedContinuum servers n) :
    item.index < n := by
  unfold unsortedContinuum at h
  rw [List.mem_flatMap] at h
  obtain ⟨ss, hss, hmem⟩ := h
  unfold serverPoints at hmem
  rw [List.mem_flatMap] at hmem
  obtain ⟨hh, _, hmem2⟩ := hmem
  rw [List.mem_map] at hmem2
  obtain ⟨nn, _, heq⟩ := hmem2
  rw [← heq]
  simpa using hss

theorem serverPoints_get? (addr : List Nat) (ss h nn : Nat)
    (hh : h < 40) (hnn : nn < 4) :
    (serverPoints addr ss).get? (h * 4 + nn) =
      some { index := ss, point := contPoint (hash_md5 (hostString addr h)) nn } := by
  unfold serverPoints
  rw [flatMap_get?_const _ 4 _ h nn h (fun x _ => by simp [NUM_PER_HASH])
    (by rw [List.get?_range]; simpa [NUM_OF_HASHES] using hh) hnn]
  rw [List.get?_map, List.get?_range (by simpa [NUM_PER_HASH] using hnn)]
  rfl

theorem unsortedContinuum_get? (servers : List server_item) (n s h nn : Nat)
    (hs : s < n) (hh : h < 40) (hnn : nn < 4) :
    (unsortedContinuum servers n).get? (s * 160 + (h * 4 + nn)) =
      some { index := s,
             point := contPoint
               (hash_md5 (hostString (((servers.getD s { hostport := none }).hostport).getD []) h)) nn } := by
  unfold unsortedContinuum
  rw [flatMap_get?_const _ 160 _ s (h * 4 + nn) s
    (fun x _ => serverPoints_length _ x)
    (by rw [List.get?_range]; exact hs)
    (by omega)]
  exact serverPoints_get? _ s h nn hh hnn

/-! ## Byte and bit lemmas -/

theorem lor_shift_byte (a b n : Nat) (hb : b < 2 ^ n) :
    (a <<< n) ||| b = 2 ^ n * a + b := by
  rw [Nat.shiftLeft_eq, Nat.mul_comm]
  exact (Nat.mul_add_lt_is_or hb a).symm

theorem lor_bytes (b0 b1 b2 b3 : Nat) (h0 : b0 < 256) (h1 : b1 < 256) (h2 : b2 < 256) :
    (b3 <<< 24) ||| (b2 <<< 16) ||| (b1 <<< 8) ||| b0 =
    b0 + 256 * b1 + 65536 * b2 + 16777216 * b3 := by
  have e8 : (2 : Nat) ^ 8 = 256 := by norm_num
  have e16 : (2 : Nat) ^ 16 = 65536 := by norm_num
  have e24 : (2 : Nat) ^ 24 = 16777216 := by norm_num
  rw [Nat.lor_assoc, Nat.lor_assoc]
  rw [lor_shift_byte b1 b0 8 (by rw [e8]; omega)]
  rw [lor_shift_byte b2 (2 ^ 8 * b1 + b0) 16 (by rw [e16, e8]; omega)]
  rw [lor_shift_byte b3 (2 ^ 16 * b2 + (2 ^ 8 * b1 + b0)) 24 (by rw [e24, e16, e8]; omega)]
  rw [e24, e16, e8]
  ring

theorem wordBytesLE_mem_lt (x b : Nat) (hb : b ∈ wordBytesLE x) : b < 256 := by
  have hle : ∀ y : Nat, y &&& 255 < 256 := fun y =>
    Nat.lt_succ_of_le (Nat.and_le_right)
  simp only [wordBytesLE, List.mem_cons, List.not_mem_nil, or_false] at hb
  rcases hb with h | h | h | h <;> (subst h; exact hle _)

theorem hash_md5_mem_lt (msg : List Nat) (b : Nat) (hb : b ∈ hash_md5 msg) : b < 256 := by
  unfold hash_md5 at hb
  simp only [List.mem_append] at hb
  rcases hb with ((h | h) | h) | h <;> exact wordBytesLE_mem_lt _ b h

theorem hash_md5_byte_lt (msg : List Nat) (i : Nat) :
    (hash_md5 msg).getD i 0 < 256 := by
  rw [List.getD_eq_get?]
  cases hget : (hash_md5 msg).get? i with
  | none => simp
  | some b =>
    simp only [Option.getD_some]
    exact hash_md5_mem_lt msg b (List.get?_mem hget)

theorem byte_and_255 (b : Nat) (hb : b < 256) : b &&& 255 = b := by
  have hb' : b < 2 ^ 8 := by omega
  have h2 := Nat.and_pow_two_sub_one_of_lt_two_pow hb'
  norm_num at h2
  exact h2

theorem contPoint_md5 (msg : List Nat) (nn : Nat) :
    contPoint (hash_md5 msg) nn = pointFromDigest (hash_md5 msg) (4 * nn) := by
  unfold contPoint pointFromDigest NUM_PER_HASH
  have e0 : 0 + nn * 4 = 4 * nn := by ring
  have e1 : 1 + nn * 4 = 4 * nn + 1 := by ring
  have e2 : 2 + nn * 4 = 4 * nn + 2 := by ring
  have e3 : 3 + nn * 4 = 4 * nn + 3 := by ring
  rw [e0, e1, e2, e3]
  rw [byte_and_255 _ (hash_md5_byte_lt msg _), byte_and_255 _ (hash_md5_byte_lt msg _),
    byte_and_255 _ (hash_md5_byte_lt msg _), byte_and_255 _ (hash_md5_byte_lt msg _)]
  exact lor_bytes _ _ _ _ (hash_md5_byte_lt msg _) (hash_md5_byte_lt msg _)
    (hash_md5_byte_lt msg _)

theorem mergeSort_point_sorted (l : List continuum_item) :
    (l.mergeSort (fun a b => decide (a.point ≤ b.point))).Pairwise
      (fun a b => a.point ≤ b.point) := by
  have h := @List.sorted_mergeSort continuum_item
    (fun a b => decide (a.point ≤ b.point))
    (fun a b c hab hbc =>
      decide_eq_true (Nat.le_trans (of_decide_eq_true hab) (of_decide_eq_true hbc)))
    (fun a b => by
      rcases Nat.le_total a.point b.point with hle | hle <;> simp [hle])
    l
  exact h.imp (fun hab => of_decide_eq_true hab)

/-! ## Ownership-resolver lemmas -/

theorem ketamaMid_bounds (low high : Int) (h : low ≤ high) :
    low ≤ ketamaMid low high ∧ ketamaMid low high ≤ high := by
  unfold ketamaMid
  omega

theorem ketamaPrev_isSome (ring : List continuum_item) (mid : Int)
    (h0 : 0 ≤ mid) (hlt : mid.toNat < ring.length) :
    ∃ prev, ketamaPrev ring mid = some prev := by
  unfold ketamaPrev
  by_cases hm0 : mid = 0
  · exact ⟨0, by rw [if_pos hm0]⟩
  · have hl : mid.toNat - 1 < ring.length := by omega
    exact ⟨(ring.get ⟨mid.toNat - 1, hl⟩).point,
      by rw [if_neg hm0, List.get?_eq_get hl]; rfl⟩

theorem ketamaLoop_isSome (ring : List continuum_item) (digest : Nat) :
    ∀ (fuel : Nat) (low high : Int), 0 ≤ low → low ≤ high →
      high ≤ (ring.length : Int) → (high - low).toNat < fuel →
      ∃ pos, ketamaLoop ring ring.length digest fuel low high = some pos ∧
        (pos = 0 ∨ pos < ring.length) := by
  intro fuel
  induction fuel with
  | zero => intro low high _ _ _ hf; omega
  | succ f ih =>
    intro low high hlow hlh hhn hf
    have hmid := ketamaMid_bounds low high hlh
    by_cases hmn : ketamaMid low high = (ring.length : Int)
    · exact ⟨0, by rw [ketamaLoop, if_pos hmn], Or.inl rfl⟩
    · have hmlt : (ketamaMid low high).toNat < ring.length := by omega
      have hget := List.get?_eq_get hmlt
      obtain ⟨prev, hprev⟩ := ketamaPrev_isSome ring (ketamaMid low high) (by omega) hmlt
      rw [ketamaLoop, if_neg hmn]
      simp only [hget, hprev]
      by_cases hfound : digest ≤ (ring.get ⟨(ketamaMid low high).toNat, hmlt⟩).point ∧
          prev < digest
      · rw [if_pos hfound]
        exact ⟨(ketamaMid low high).toNat, rfl, Or.inr hmlt⟩
      · rw [if_neg hfound]
        by_cases hc : (ring.get ⟨(ketamaMid low high).toNat, hmlt⟩).point < digest
        · rw [if_pos hc]
          by_cases hgt : ketamaMid low high + 1 > high
          · rw [if_pos hgt]
            exact ⟨0, rfl, Or.inl rfl⟩
          · rw [if_neg hgt]
            exact ih (ketamaMid low high + 1) high (by omega) (by omega) hhn (by omega)
        · rw [if_neg hc]
          by_cases hgt : low > ketamaMid low high - 1
          · rw [if_pos hgt]
            exact ⟨0, rfl, Or.inl rfl⟩
          · rw [if_neg hgt]
            exact ih low (ketamaMid low high - 1) hlow (by omega) (by omega) (by omega)

theorem ketamaLoop_all_below (ring : List continuum_item) (digest : Nat)
    (hall : ∀ it ∈ ring, it.point < digest) :
    ∀ (fuel : Nat) (low : Int), 0 ≤ low → low ≤ (ring.length : Int) →
      ((ring.length : Int) - low).toNat < fuel →
      ketamaLoop ring ring.length digest fuel low (ring.length : Int) = some 0 := by
  intro fuel
  induction fuel with
  | zero => intro low _ _ hf; omega
  | succ f ih =>
    intro low hlow hln hf
    by_cases hmn : ketamaMid low (ring.length : Int) = (ring.length : Int)
    · rw [ketamaLoop, if_pos hmn]
    · have hmid := ketamaMid_bounds low (ring.length : Int) hln
      have hmlt : (ketamaMid low (ring.length : Int)).toNat < ring.length := by omega
      have hget := List.get?_eq_get hmlt
      obtain ⟨prev, hprev⟩ :=
        ketamaPrev_isSome ring (ketamaMid low (ring.length : Int)) (by omega) hmlt
      have hpt : (ring.get ⟨(ketamaMid low (ring.length : Int)).toNat, hmlt⟩).point < digest :=
        hall _ (ring.get_mem _ _)
      rw [ketamaLoop, if_neg hmn]
      simp only [hget, hprev]
      have hfound : ¬(digest ≤ (ring.get ⟨(ketamaMid low (ring.length : Int)).toNat, hmlt⟩).point ∧
          prev < digest) := by
        intro hcon
        omega
      rw [if_neg hfound, if_pos hpt]
      by_cases hgt : ketamaMid low (ring.length : Int) + 1 > (ring.length : Int)
      · rw [if_pos hgt]
      · rw [if_neg hgt]
        exact ih (ketamaMid low (ring.length : Int) + 1) (by omega) (by omega) (by omega)

/-! ## Reconfigure characterization -/

theorem reconfigure_fail_eq (alloc : AllocOracle) (cfg : cluster_config)
    (sl : List (List Nat))
    (h : (server_item_populate alloc sl cfg.self_hostport).fst = none) :
    cluster_config_reconfigure alloc cfg sl =
      { ok := false, config := { cfg with is_valid := false },
        server_list := (server_item_populate alloc sl cfg.self_hostport).snd } := by
  simp [cluster_config_reconfigure, h]

theorem reconfigure_fail2_eq (alloc : AllocOracle) (cfg : cluster_config)
    (sl : List (List Nat)) (servers : List server_item) (self_id : Nat)
    (h : (server_item_populate alloc sl cfg.self_hostport).fst = some (servers, self_id))
    (hcc : alloc.continuum_calloc = false) :
    cluster_config_reconfigure alloc cfg sl =
      { ok := false, config := { cfg with is_valid := false },
        server_list := (server_item_populate alloc sl cfg.self_hostport).snd } := by
  simp [cluster_config_reconfigure, h, ketama_continuum_generate, hcc]

theorem reconfigure_ok_eq (alloc : AllocOracle) (cfg : cluster_config)
    (sl : List (List Nat)) (servers : List server_item) (self_id : Nat)
    (h : (server_item_populate alloc sl cfg.self_hostport).fst = some (servers, self_id))
    (hcc : alloc.continuum_calloc = true) :
    cluster_config_reconfigure alloc cfg sl =
      { ok := true,
        config := { cfg with
          self_id := self_id, num_servers := sl.length, servers := servers,
          continuum := (unsortedContinuum servers sl.length).mergeSort
            (fun a b => decide (a.point ≤ b.point)),
          num_continuum := ((unsortedContinuum servers sl.length).mergeSort
            (fun a b => decide (a.point ≤ b.point))).length,
          continuum_null := false, is_valid := true },
        server_list := (server_item_populate alloc sl cfg.self_hostport).snd } := by
  simp [cluster_config_reconfigure, h, ketama_continuum_generate, hcc]

theorem reconfigure_ok_inv (alloc : AllocOracle) (cfg : cluster_config)
    (sl : List (List Nat))
    (hok : (cluster_config_reconfigure alloc cfg sl).ok = true) :
    ∃ servers self_id,
      (server_item_populate alloc sl cfg.self_hostport).fst = some (servers, self_id) ∧
      alloc.continuum_calloc = true := by
  cases hfst : (server_item_populate alloc sl cfg.self_hostport).fst with
  | none =>
    rw [reconfigure_fail_eq alloc cfg sl hfst] at hok
    simp at hok
  | some p =>
    cases hcc : alloc.continuum_calloc with
    | false =>
      obtain ⟨servers, self_id⟩ := p
      rw [reconfigure_fail2_eq alloc cfg sl servers self_id hfst hcc] at hok
      simp at hok
    | true =>
      obtain ⟨servers, self_id⟩ := p
      exact ⟨servers, self_id, rfl, rfl⟩

/-! ## Resolver at the configuration level -/

theorem key_is_mine_total (cfg : cluster_config) (key : List Nat)
    (hnull : cfg.continuum_null = false) (hval : cfg.is_valid = true)
    (hnum : cfg.num_continuum = cfg.continuum.length)
    (hpos : 0 < cfg.continuum.length) :
    ((cluster_config_key_is_mine cfg key).fst).isSome = true := by
  obtain ⟨pos, hloop, hcases⟩ := ketamaLoop_isSome cfg.continuum (hash_ketama key)
    (cfg.continuum.length + 1) 0 (cfg.continuum.length : Int)
    (by omega) (by omega) (by omega) (by omega)
  have hplt : pos < cfg.continuum.length := by
    rcases hcases with h0 | h
    · omega
    · exact h
  unfold cluster_config_key_is_mine
  simp only [hnull, hval, Bool.false_eq_true, Bool.true_eq_false, if_false]
  rw [hnum, hloop]
  simp [List.getElem?_eq_getElem hplt]

theorem key_is_mine_wraparound (cfg : cluster_config) (key : List Nat)
    (hnull : cfg.continuum_null = false) (hval : cfg.is_valid = true)
    (hnum : cfg.num_continuum = cfg.continuum.length)
    (hpos : 0 < cfg.continuum.length)
    (hall : ∀ it ∈ cfg.continuum, it.point < hash_ketama key) :
    (cluster_config_key_is_mine cfg key).fst =
      some { is_mine := decide ((cfg.continuum.getD 0 { index := 0, point := 0 }).index
                = cfg.self_id),
             ids := some ((cfg.continuum.getD 0 { index := 0, point := 0 }).index,
                cfg.self_id) } := by
  have hloop := ketamaLoop_all_below cfg.continuum (hash_ketama key) hall
    (cfg.continuum.length + 1) 0 (by omega) (by omega) (by omega)
  unfold cluster_config_key_is_mine
  simp only [hnull, hval, Bool.false_eq_true, Bool.true_eq_false, if_false]
  rw [hnum, hloop]
  simp [List.getElem?_eq_getElem hpos, List.getD_eq_getElem?_getD]

/-! ## Claim theorems -/

/-- C1: for every valid cluster state (validity flag true, non-NULL continuum,
`num_continuum` consistent with the ring, nonempty ring — the state shape a
successful reconfigure installs) and every key whose 32-bit ketama digest is
strictly greater than every ring point's value, resolve returns as owning
server index the server index stored in the ring entry at index 0 (the
wraparound to the server owning the smallest ring point). -/
theorem C1_wraparound_resolves_to_first_entry (cfg : cluster_config) (key : List Nat)
    (hnull : cfg.continuum_null = false) (hval : cfg.is_valid = true)
    (hnum : cfg.num_continuum = cfg.continuum.length)
    (hpos : 0 < cfg.continuum.length)
    (hall : ∀ it ∈ cfg.continuum, it.point < hash_ketama key) :
    (cluster_config_key_is_mine cfg key).fst =
      some { is_mine := decide ((cfg.continuum.getD 0 { index := 0, point := 0 }).index
                = cfg.self_id),
             ids := some ((cfg.continuum.getD 0 { index := 0, point := 0 }).index,
                cfg.self_id) } :=
  key_is_mine_wraparound cfg key hnull hval hnum hpos hall

theorem C1_witness :
    (∀ it ∈ ([{ index := 7, point := 5 }] : List continuum_item),
        it.point < hash_ketama [97]) ∧
    (cluster_config_key_is_mine
        { self_id := 7, self_hostport := [97], num_servers := 1, num_continuum := 1,
          servers := [{ hostport := some [97] }],
          continuum := [{ index := 7, point := 5 }],
          continuum_null := false, is_valid := true } [97]).fst =
      some { is_mine := decide ((([{ index := 7, point := 5 }] :
                List continuum_item).getD 0 { index := 0, point := 0 }).index = 7),
             ids := some ((([{ index := 7, point := 5 }] :
                List continuum_item).getD 0 { index := 0, point := 0 }).index, 7) } :=
  ⟨by decide,
   C1_wraparound_resolves_to_first_entry
     { self_id := 7, self_hostport := [97], num_servers := 1, num_continuum := 1,
       servers := [{ hostport := some [97] }],
       continuum := [{ index := 7, point := 5 }],
       continuum_null := false, is_valid := true } [97]
     rfl rfl rfl (by decide) (by decide)⟩

/-- C10: the binary-search loop of resolve terminates — with fuel exceeding
the width of the `low..high` interval it always produces an answer (each
iteration either returns a server or strictly shrinks the interval until a
fallback fires) — and consequently resolve is a total function on every
valid cluster state with at least one ring point. -/
theorem C10_search_terminates :
    (∀ (ring : List continuum_item) (digest fuel : Nat) (low high : Int),
        0 ≤ low → low ≤ high → high ≤ (ring.length : Int) →
        (high - low).toNat < fuel →
        (ketamaLoop ring ring.length digest fuel low high).isSome = true) ∧
    (∀ (cfg : cluster_config) (key : List Nat),
        cfg.continuum_null = false → cfg.is_valid = true →
        cfg.num_continuum = cfg.continuum.length → 0 < cfg.continuum.length →
        ((cluster_config_key_is_mine cfg key).fst).isSome = true) := by
  constructor
  · intro ring digest fuel low high h1 h2 h3 h4
    obtain ⟨pos, hp, _⟩ := ketamaLoop_isSome ring digest fuel low high h1 h2 h3 h4
    rw [hp]
    rfl
  · intro cfg key h1 h2 h3 h4
    exact key_is_mine_total cfg key h1 h2 h3 h4

theorem C10_witness :
    ((cluster_config_key_is_mine
        { self_id := 0, self_hostport := [], num_servers := 1, num_continuum := 1,
          servers := [{ hostport := some [98] }],
          continuum := [{ index := 0, point := 9 }],
          continuum_null := false, is_valid := true } [98]).fst).isSome = true :=
  C10_search_terminates.2
    { self_id := 0, self_hostport := [], num_servers := 1, num_continuum := 1,
      servers := [{ hostport := some [98] }],
      continuum := [{ index := 0, point := 9 }],
      continuum_null := false, is_valid := true } [98]
    rfl rfl rfl (by decide)

/-- C7 counterexample: on the freshly initialized state the continuum pointer
is NULL, so the entry assertion `assert(config->continuum)` of resolve fails
(modelled as no result) instead of returning the fail-safe `is_mine = true`
the claim promises for every handle state. -/
theorem C7_counterexample_fresh_state_asserts :
    ((cluster_config_key_is_mine cluster_config_init [97]).fst).isSome = false := rfl

/-- C7 (amended): for every state whose continuum pointer is non-NULL (the
entry assertion passes): whenever the validity flag is false resolve returns
`is_mine = true` unconditionally without writing its out-parameters, and
whenever the flag is true over a consistent nonempty ring resolve returns an
ownership decision. -/
theorem C7_amended_resolve_failsafe (cfg : cluster_config) (key : List Nat)
    (hnull : cfg.continuum_null = false) :
    (cfg.is_valid = false →
      (cluster_config_key_is_mine cfg key).fst =
        some { is_mine := true, ids := none }) ∧
    (cfg.is_valid = true → cfg.num_continuum = cfg.continuum.length →
      0 < cfg.continuum.length →
      ((cluster_config_key_is_mine cfg key).fst).isSome = true) := by
  constructor
  · intro hval
    unfold cluster_config_key_is_mine
    simp [hnull, hval]
  · intro hval hnum hpos
    exact key_is_mine_total cfg key hnull hval hnum hpos

theorem C7_witness :
    (cluster_config_key_is_mine
        { self_id := 0, self_hostport := [], num_servers := 0, num_continuum := 0,
          servers := [], continuum := [], continuum_null := false,
          is_valid := false } [97]).fst =
      some { is_mine := true, ids := none } :=
  (C7_amended_resolve_failsafe
    { self_id := 0, self_hostport := [], num_servers := 0, num_continuum := 0,
      servers := [], continuum := [], continuum_null := false, is_valid := false }
    [97] rfl).1 rfl

/-- C6: whenever reconfigure fails in its registry stage (`server_item_populate`
returns failure) or its ring-builder stage (the continuum `calloc` fails), it
returns false, the validity flag becomes false, and `num_servers`,
`num_continuum`, the installed server list, the installed ring, and the stored
self index all retain their pre-failure values. -/
theorem C6_failed_reconfigure_preserves_state (alloc : AllocOracle)
    (cfg : cluster_config) (sl : List (List Nat))
    (hfail : (server_item_populate alloc sl cfg.self_hostport).fst = none ∨
      alloc.continuum_calloc = false) :
    (cluster_config_reconfigure alloc cfg sl).ok = false ∧
    (cluster_config_reconfigure alloc cfg sl).config.is_valid = false ∧
    (cluster_config_reconfigure alloc cfg sl).config.num_servers = cfg.num_servers ∧
    (cluster_config_reconfigure alloc cfg sl).config.num_continuum = cfg.num_continuum ∧
    (cluster_config_reconfigure alloc cfg sl).config.servers = cfg.servers ∧
    (cluster_config_reconfigure alloc cfg sl).config.continuum = cfg.continuum ∧
    (cluster_config_reconfigure alloc cfg sl).config.self_id = cfg.self_id := by
  cases hfst : (server_item_populate alloc sl cfg.self_hostport).fst with
  | none =>
    rw [reconfigure_fail_eq alloc cfg sl hfst]
    simp
  | some p =>
    rcases hfail with hpop | hcc
    · rw [hfst] at hpop
      simp at hpop
    · obtain ⟨servers, self_id⟩ := p
      rw [reconfigure_fail2_eq alloc cfg sl servers self_id hfst hcc]
      simp

theorem C6_witness :
    ((server_item_populate allocNoServers [[97]]
        cluster_config_init.self_hostport).fst = none ∨
      allocNoServers.continuum_calloc = false) ∧
    (cluster_config_reconfigure allocNoServers cluster_config_init [[97]]).ok = false ∧
    (cluster_config_reconfigure allocNoServers cluster_config_init
        [[97]]).config.is_valid = false :=
  have hf : (server_item_populate allocNoServers [[97]]
      cluster_config_init.self_hostport).fst = none ∨
      allocNoServers.continuum_calloc = false :=
    Or.inl (by decide)
  have h := C6_failed_reconfigure_preserves_state allocNoServers
    cluster_config_init [[97]] hf
  ⟨hf, h.1, h.2.1⟩

theorem populate_some_length (alloc : AllocOracle) (sl : List (List Nat))
    (self : List Nat) (servers : List server_item) (self_id : Nat)
    (h : (server_item_populate alloc sl self).fst = some (servers, self_id)) :
    servers.length = sl.length := by
  unfold server_item_populate at h
  cases hsc : alloc.servers_calloc with
  | false =>
    rw [hsc] at h
    simp at h
  | true =>
    rw [hsc] at h
    simp only [if_true] at h
    exact populateLoop_length alloc self sl 0 0 servers self_id h

/-- C2: whenever the validity flag is true the installed state satisfies the
ring invariant (ring length equals `servers.length * 160`, ring sorted
ascending by point value, every ring point's server index a valid index into
the server list); the initial state satisfies it, and reconfigure (successful
or failed) as well as resolve preserve it (resolve returns the configuration
unchanged). -/
theorem C2_invariant_preserved :
    ConfigInvariant cluster_config_init ∧
    (∀ (alloc : AllocOracle) (cfg : cluster_config) (sl : List (List Nat)),
        ConfigInvariant cfg →
        ConfigInvariant (cluster_config_reconfigure alloc cfg sl).config) ∧
    (∀ (cfg : cluster_config) (key : List Nat),
        ConfigInvariant cfg →
        ConfigInvariant (cluster_config_key_is_mine cfg key).snd) := by
  refine ⟨?_, ?_, ?_⟩
  · intro h
    simp [cluster_config_init] at h
  · intro alloc cfg sl _
    cases hfst : (server_item_populate alloc sl cfg.self_hostport).fst with
    | none =>
      rw [reconfigure_fail_eq alloc cfg sl hfst]
      intro h
      simp at h
    | some p =>
      obtain ⟨servers, self_id⟩ := p
      cases hcc : alloc.continuum_calloc with
      | false =>
        rw [reconfigure_fail2_eq alloc cfg sl servers self_id hfst hcc]
        intro h
        simp at h
      | true =>
        rw [reconfigure_ok_eq alloc cfg sl servers self_id hfst hcc]
        intro _
        have hlen := populate_some_length alloc sl cfg.self_hostport servers self_id hfst
        refine ⟨?_, ?_, ?_⟩
        · show ((unsortedContinuum servers sl.length).mergeSort
            (fun a b => decide (a.point ≤ b.point))).length = servers.length * 160
          rw [List.length_mergeSort, unsortedContinuum_length, hlen]
        · exact mergeSort_point_sorted _
        · intro item hmem
          rw [List.mem_mergeSort] at hmem
          have hidx := unsortedContinuum_index_lt servers sl.length item hmem
          show item.index < servers.length
          omega
  · intro cfg key h
    exact h

theorem C2_witness :
    ConfigInvariant (cluster_config_reconfigure allocAllOk
      cluster_config_init [[97]]).config :=
  C2_invariant_preserved.2.1 allocAllOk cluster_config_init [[97]] (by decide)

/-- C3: for every server list whose entries all carry an address, ring
construction emits, for each server at index `s` and each `h` in `0..39`,
the 16-byte MD5 digest of the byte string `"<address>-<h>"` and derives from
it exactly 4 ring points carrying server index `s`, taking the 4-byte
little-endian slice at byte offset `4*n` for `n` in `0..3` (the byte at the
offset least-significant), for a total of exactly `160 * servers.length`
points before the final ascending sort. -/
theorem C3_point_generation (servers : List server_item) (num_servers : Nat)
    (hn : num_servers = servers.length)
    (haddr : ∀ item ∈ servers, item.hostport.isSome = true) :
    (unsortedContinuum servers num_servers).length = num_servers * 160 ∧
    ∀ s h nn, s < num_servers → h < 40 → nn < 4 →
      (unsortedContinuum servers num_servers).get? (s * 160 + (h * 4 + nn)) =
        some { index := s,
               point := pointFromDigest
                 (hash_md5 ((((servers.getD s { hostport := none }).hostport).getD []) ++
                   45 :: decimalBytes h)) (4 * nn) } := by
  refine ⟨unsortedContinuum_length servers num_servers, ?_⟩
  intro s h nn hs hh hnn
  rw [unsortedContinuum_get? servers num_servers s h nn hs hh hnn]
  rw [contPoint_md5]
  rfl

theorem C3_witness :
    (unsortedContinuum [{ hostport := some [97] }] 1).length = 1 * 160 ∧
    (unsortedContinuum [{ hostport := some [97] }] 1).get? (0 * 160 + (0 * 4 + 1)) =
      some { index := 0,
             point := pointFromDigest
               (hash_md5 (((([{ hostport := some [97] }] :
                  List server_item).getD 0 { hostport := none }).hostport).getD [] ++
                 45 :: decimalBytes 0)) (4 * 1) } :=
  ⟨(C3_point_generation [{ hostport := some [97] }] 1 rfl (by decide)).1,
   (C3_point_generation [{ hostport := some [97] }] 1 rfl (by decide)).2
     0 0 1 (by decide) (by decide) (by decide)⟩

/-- C4 counterexample: with self address `"a"` and the token list
`["a", "a"]`, entry 0 already matches the self address, yet a successful
reconfigure installs `self_id = 1` — the last matching occurrence, not the
first as the claim states. -/
theorem C4_counterexample_last_occurrence :
    (cluster_config_reconfigure allocAllOk
        (cluster_config_set_hostport cluster_config_init [97]) [[97], [97]]).ok = true ∧
    (cluster_config_reconfigure allocAllOk
        (cluster_config_set_hostport cluster_config_init [97])
        [[97], [97]]).config.self_id = 1 ∧
    tokenize (([[97], [97]] : List (List Nat)).getD 0 []) =
      some (cluster_config_set_hostport cluster_config_init [97]).self_hostport := by
  refine ⟨by decide, by decide, by decide⟩

/-- C4 (amended): for every input token list in which at least one token's
canonical address exactly equals the node's own address, a successful
reconfigure (all allocations succeeding) installs as `self_id` the index of
the last such entry; when two entries share the self address, the last
occurrence wins. -/
theorem C4_amended_last_match_wins (alloc : AllocOracle) (cfg : cluster_config)
    (sl : List (List Nat)) (hcal : alloc.servers_calloc = true)
    (hstr : ∀ j, alloc.strdup j = true) (hcc : alloc.continuum_calloc = true)
    (hmatch : lastMatchIdx cfg.self_hostport sl ≠ none) :
    (cluster_config_reconfigure alloc cfg sl).ok = true ∧
    lastMatchIdx cfg.self_hostport sl =
      some (cluster_config_reconfigure alloc cfg sl).config.self_id := by
  obtain ⟨sidOut, hfst, hcase⟩ := populateLoop_success alloc cfg.self_hostport hstr sl 0 0
  have hpop : (server_item_populate alloc sl cfg.self_hostport).fst =
      some (sl.map (fun s => { hostport := tokenize s }), sidOut) := by
    unfold server_item_populate
    rw [hcal]
    simpa using hfst
  rw [reconfigure_ok_eq alloc cfg sl _ sidOut hpop hcc]
  refine ⟨rfl, ?_⟩
  show lastMatchIdx cfg.self_hostport sl = some sidOut
  rcases hcase with ⟨hs, hnone⟩ | ⟨k, hk, hkt, hko, hlast⟩
  · exfalso
    apply hmatch
    unfold lastMatchIdx
    rw [filter_range_nil]
    · rfl
    · intro j hj
      exact decide_eq_false (hnone j hj)
  · unfold lastMatchIdx
    rw [filter_range_getLast _ sl.length k hk (decide_eq_true hkt)
      (fun j h1 h2 => decide_eq_false (hlast j h2 h1))]
    rw [hko]
    norm_num

theorem C4_witness :
    (cluster_config_reconfigure allocAllOk
        (cluster_config_set_hostport cluster_config_init [97]) [[98], [97]]).ok = true ∧
    lastMatchIdx (cluster_config_set_hostport cluster_config_init [97]).self_hostport
        [[98], [97]] =
      some (cluster_config_reconfigure allocAllOk
        (cluster_config_set_hostport cluster_config_init [97])
        [[98], [97]]).config.self_id :=
  C4_amended_last_match_wins allocAllOk
    (cluster_config_set_hostport cluster_config_init [97]) [[98], [97]]
    rfl (fun _ => rfl) rfl (by decide)

/-- C5 counterexample: the raw token `"-a"` contains a separator, so the claim
says its canonical address is the substring before the first `-`, i.e. the
empty string; the registry instead stores `"-a"` verbatim (the leading
separator run is skipped by `strtok_r`, not treated as a split point). -/
theorem C5_counterexample_leading_dash :
    ((server_item_populate allocAllOk [[45, 97]] []).fst).map (fun p => p.fst) =
      some [{ hostport := some [45, 97] }] ∧
    claimCanonical [45, 97] = [] ∧
    ([45, 97] : List Nat) ≠ [] := by
  refine ⟨by decide, by decide, by decide⟩

/-- C5 (amended): for every raw token that is nonempty and does not begin with
the separator, the registry keeps as canonical address the substring before
the first `-` when the token contains one and the token verbatim otherwise,
producing one canonical address per input token in input order (when all
allocations succeed). -/
theorem C5_amended_canonical_addresses (alloc : AllocOracle)
    (sl : List (List Nat)) (self : List Nat)
    (hcal : alloc.servers_calloc = true) (hstr : ∀ j, alloc.strdup j = true)
    (htok : ∀ s ∈ sl, s ≠ [] ∧ s.headD 0 ≠ 45) :
    ((server_item_populate alloc sl self).fst).map (fun p => p.fst) =
      some (sl.map (fun s => { hostport := some (claimCanonical s) })) := by
  obtain ⟨sidOut, hfst, _⟩ := populateLoop_success alloc self hstr sl 0 0
  unfold server_item_populate
  rw [hcal]
  simp only [if_true, hfst, Option.map_some']
  have hcongr : sl.map (fun s => ({ hostport := tokenize s } : server_item)) =
      sl.map (fun s => { hostport := some (claimCanonical s) }) := by
    apply List.map_congr_left
    intro s hs
    obtain ⟨hne, hhead⟩ := htok s hs
    cases s with
    | nil => exact absurd rfl hne
    | cons c r =>
      have hc : c ≠ 45 := by simpa using hhead
      rw [tokenize_eq_claimCanonical c r hc]
  rw [hcongr]

theorem C5_witness :
    ((server_item_populate allocAllOk [[97, 45, 98], [99]] []).fst).map
        (fun p => p.fst) =
      some (([[97, 45, 98], [99]] : List (List Nat)).map
        (fun s => { hostport := some (claimCanonical s) })) :=
  C5_amended_canonical_addresses allocAllOk [[97, 45, 98], [99]] []
    rfl (fun _ => rfl) (by decide)

/-- C8 counterexample: after a successful reconfigure installs `self_id = 1`,
a second successful reconfigure whose token list has no entry matching the
self address installs `self_id = 0` — not the previous value 1 as the claim
states. -/
theorem C8_counterexample_reset_to_zero :
    (cluster_config_reconfigure allocAllOk
        (cluster_config_set_hostport cluster_config_init [98]) [[97], [98]]).ok = true ∧
    (cluster_config_reconfigure allocAllOk
        (cluster_config_set_hostport cluster_config_init [98])
        [[97], [98]]).config.self_id = 1 ∧
    (cluster_config_reconfigure allocAllOk
        (cluster_config_reconfigure allocAllOk
          (cluster_config_set_hostport cluster_config_init [98])
          [[97], [98]]).config [[99]]).ok = true ∧
    (cluster_config_reconfigure allocAllOk
        (cluster_config_reconfigure allocAllOk
          (cluster_config_set_hostport cluster_config_init [98])
          [[97], [98]]).config [[99]]).config.self_id = 0 := by
  refine ⟨by decide, by decide, by decide, by decide⟩

/-- C8 (amended): for every successful reconfigure (all allocations
succeeding) in which no token's canonical address equals the node's own
address, the installed `self_id` is 0 — the initial value of the local
variable in `cluster_config_reconfigure` — regardless of the previously
stored self index. -/
theorem C8_amended_self_reset (alloc : AllocOracle) (cfg : cluster_config)
    (sl : List (List Nat)) (hcal : alloc.servers_calloc = true)
    (hstr : ∀ j, alloc.strdup j = true) (hcc : alloc.continuum_calloc = true)
    (hnomatch : lastMatchIdx cfg.self_hostport sl = none) :
    (cluster_config_reconfigure alloc cfg sl).ok = true ∧
    (cluster_config_reconfigure alloc cfg sl).config.self_id = 0 := by
  obtain ⟨sidOut, hfst, hcase⟩ := populateLoop_success alloc cfg.self_hostport hstr sl 0 0
  have hpop : (server_item_populate alloc sl cfg.self_hostport).fst =
      some (sl.map (fun s => { hostport := tokenize s }), sidOut) := by
    unfold server_item_populate
    rw [hcal]
    simpa using hfst
  rw [reconfigure_ok_eq alloc cfg sl _ sidOut hpop hcc]
  refine ⟨rfl, ?_⟩
  show sidOut = 0
  rcases hcase with ⟨hs, _⟩ | ⟨k, hk, hkt, _, hlast⟩
  · exact hs
  · exfalso
    unfold lastMatchIdx at hnomatch
    rw [List.getLast?_eq_none_iff] at hnomatch
    have hkmem : k ∈ (List.range sl.length).filter
        (fun i => decide (tokenize (sl.getD i []) = some cfg.self_hostport)) := by
      rw [List.mem_filter]
      exact ⟨List.mem_range.mpr hk, decide_eq_true hkt⟩
    rw [hnomatch] at hkmem
    simp at hkmem

theorem C8_witness :
    (cluster_config_reconfigure allocAllOk
        (cluster_config_set_hostport cluster_config_init [97]) [[98]]).ok = true ∧
    (cluster_config_reconfigure allocAllOk
        (cluster_config_set_hostport cluster_config_init [97])
        [[98]]).config.self_id = 0 :=
  C8_amended_self_reset allocAllOk
    (cluster_config_set_hostport cluster_config_init [97]) [[98]]
    rfl (fun _ => rfl) rfl (by decide)

/-- C9: reconfigure mutates its caller's `server_list` in place — for every
token that contains a `-` separator after at least one non-separator byte,
the first such separator is overwritten with a NUL terminator, truncating the
caller's string there; tokens without such a separator are left unchanged
(stated for runs in which the registry processes every token, i.e. its
allocations succeed). -/
theorem C9_reconfigure_truncates_tokens (alloc : AllocOracle)
    (cfg : cluster_config) (sl : List (List Nat))
    (hcal : alloc.servers_calloc = true) (hstr : ∀ j, alloc.strdup j = true) :
    (cluster_config_reconfigure alloc cfg sl).server_list = sl.map claimMutate := by
  have hsnd : (server_item_populate alloc sl cfg.self_hostport).snd =
      sl.map claimMutate := by
    unfold server_item_populate
    rw [hcal]
    simp only [if_true]
    rw [populateLoop_snd alloc cfg.self_hostport hstr sl 0 0]
    exact List.map_congr_left (fun s _ => mutToken_eq_claimMutate s)
  cases hfst : (server_item_populate alloc sl cfg.self_hostport).fst with
  | none =>
    rw [reconfigure_fail_eq alloc cfg sl hfst]
    exact hsnd
  | some p =>
    obtain ⟨servers, self_id⟩ := p
    cases hcc : alloc.continuum_calloc with
    | false =>
      rw [reconfigure_fail2_eq alloc cfg sl servers self_id hfst hcc]
      exact hsnd
    | true =>
      rw [reconfigure_ok_eq alloc cfg sl servers self_id hfst hcc]
      exact hsnd

theorem C9_witness :
    (cluster_config_reconfigure allocAllOk cluster_config_init
        [[97, 45, 98], [45, 99], [100]]).server_list =
      ([[97, 45, 98], [45, 99], [100]] : List (List Nat)).map claimMutate :=
  C9_reconfigure_truncates_tokens allocAllOk cluster_config_init
    [[97, 45, 98], [45, 99], [100]] rfl (fun _ => rfl)

end ClusterConfig
